import Mathlib

/-
Verification of the netpod_base RPC core (src/lib.rs, src/impls.rs, src/error.rs).

Shallow embedding conventions:
  - wire bytes are modelled as `List Char` (the protocol here is ASCII framed);
  - Rust `Result<T, E>` becomes `Except E T`, `Option<T>` becomes `Option T`;
  - the `HashMap<String, HandlerFn>` registry becomes an association list
    `List (String × (Request → Except NetpodError Response))`; iteration order of
    the hash map is unspecified in Rust, the list order stands in for one such order;
  - asynchronous handlers are modelled as plain functions (no scheduling is needed
    for the dispatched properties);
  - a Rust panic (out-of-bounds index) is modelled by `Option`, with `none` marking
    the panic;
  - logging (eprintln) is dropped: it does not affect any returned value.
-/

set_option autoImplicit false

/-- Operation kind, from `enum Op` in src/lib.rs. -/
inductive Op where
  | Describe
  | Invoke
deriving DecidableEq

/-- From `Op::from_str` in src/lib.rs: only "describe" and "invoke" are recognized. -/
def Op.from_str (s : String) : Except String Op :=
  if s = "describe" then .ok .Describe
  else if s = "invoke" then .ok .Invoke
  else .error ("Invalid operation: " ++ s)

/-- From `struct Request` in src/lib.rs. -/
structure Request where
  op : Op
  id : Option String
  var : Option String
  args : Option String
deriving DecidableEq

/-- From `struct Var` in src/lib.rs. -/
structure Var where
  name : String
deriving DecidableEq

/-- From `struct Namespace` in src/lib.rs. -/
structure Namespace where
  name : String
  vars : List Var
deriving DecidableEq

/-- From `struct DescribeResponse` in src/lib.rs. -/
structure DescribeResponse where
  format : String
  namespaces : List Namespace
deriving DecidableEq

/-- From `enum Status` in src/lib.rs. -/
inductive Status where
  | Done
  | Error
deriving DecidableEq

/-- From `Status::as_str` in src/lib.rs. -/
def Status.as_str : Status → String
  | .Done => "done"
  | .Error => "error"

/-- From `struct ErrorResponse` in src/lib.rs. -/
structure ErrorResponse where
  id : Option String
  status : Status
  ex_message : String
deriving DecidableEq

/-- From `struct InvokeResponse` in src/lib.rs; `value: Vec<u8>` is modelled as a
string of its bytes. -/
structure InvokeResponse where
  id : String
  status : Status
  value : String
deriving DecidableEq

/-- From `enum Response` in src/lib.rs. -/
inductive Response where
  | Describe (r : DescribeResponse)
  | Invoke (r : InvokeResponse)
  | Error (r : ErrorResponse)
deriving DecidableEq

/-- Errors produced while decoding a bencode object into a `Request`, standing in
for `bendy::decoding::Error` as used by src/impls.rs: `unexpectedField` is
`Error::unexpected_field`, `wrongType` is a failed `String`/dictionary conversion
tagged with its `.context(...)` label, and `parseError` is a malformed byte
stream rejected by the (external) bencode tokenizer. -/
inductive DecodeError where
  | unexpectedField (name : String)
  | wrongType (label : String)
  | parseError
deriving DecidableEq

/-- Display of a `DecodeError`, standing in for the bendy error `Display` impl. -/
def DecodeError.render : DecodeError → String
  | .unexpectedField n => "unexpected field: " ++ n
  | .wrongType l => "wrong type for " ++ l
  | .parseError => "malformed bencode"

/-- From `enum NetpodError` in src/error.rs (the `IO` and `Other` payloads are
kept as their rendered messages). -/
inductive NetpodError where
  | ioError (msg : String)
  | Message (msg : String)
  | BendyDecoding (e : DecodeError)
  | BendyEncoding (msg : String)
  | Other (msg : String)
deriving DecidableEq

/-- The `thiserror`-derived `Display` of `NetpodError` (src/error.rs):
`Message` renders as its payload alone. -/
def NetpodError.render : NetpodError → String
  | .ioError m => "netpod io error: " ++ m
  | .Message m => m
  | .BendyDecoding e => "bendy decoding error: " ++ e.render
  | .BendyEncoding m => "bendy encoding error: " ++ m
  | .Other m => m

/-- From `err_response` in src/lib.rs. -/
def err_response (id : Option String) (err : NetpodError) : Response :=
  .Error { id := id, status := .Error, ex_message := err.render }

/-- From `invoke_response` in src/lib.rs. -/
def invoke_response (id : String) (value : String) : Response :=
  .Invoke { id := id, status := .Done, value := value }

/-- The registry: `HashMap<String, HandlerFn>` from src/lib.rs, as an association
list from fully-qualified key to handler. -/
abbrev Registry := List (String × (Request → Except NetpodError Response))

/-- `handler_map.get(var_name)`: first-match association lookup. -/
def lookupHandler : Registry → String → Option (Request → Except NetpodError Response)
  | [], _ => none
  | (k, f) :: rest, name => if k = name then some f else lookupHandler rest name

/-- Boolean success test on `Except`, for stating "does not fail". -/
def exceptOk {ε α : Type} : Except ε α → Bool
  | .ok _ => true
  | .error _ => false

/-- Rust `str::split_once('/')` on the underlying characters: split at the first
occurrence of the separator, which is not kept. -/
def splitOnce : List Char → Option (List Char × List Char)
  | [] => none
  | c :: rest =>
    if c = '/' then some ([], rest)
    else
      match splitOnce rest with
      | some (a, b) => some (c :: a, b)
      | none => none

/-- `full_name.split_once("/")` from `handle_describe` in src/lib.rs. -/
def splitOnceStr (s : String) : Option (String × String) :=
  match splitOnce s.data with
  | some (a, b) => some (String.mk a, String.mk b)
  | none => none

/-- One `name_map.entry(ns).and_modify(push var).or_insert(new namespace)` step of
`handle_describe` (src/lib.rs), on the association-list model of the map: an
existing namespace entry gets the var appended, otherwise a fresh entry is added. -/
def insertVar : List (String × Namespace) → String → String → List (String × Namespace)
  | [], nsn, vn => [(nsn, { name := nsn, vars := [{ name := vn }] })]
  | (k, ns) :: rest, nsn, vn =>
    if k = nsn then (k, { name := ns.name, vars := ns.vars ++ [{ name := vn }] }) :: rest
    else (k, ns) :: insertVar rest nsn vn

/-- The `for full_name in handler_map.keys()` loop of `handle_describe`
(src/lib.rs): keys with a separator are split and grouped, keys without one are
skipped (only logged). -/
def nameMapOf : List String → List (String × Namespace) → List (String × Namespace)
  | [], m => m
  | k :: rest, m =>
    match splitOnceStr k with
    | some p => nameMapOf rest (insertVar m p.1 p.2)
    | none => nameMapOf rest m

/-- The `DescribeResponse` built by `handle_describe` (src/lib.rs) from the
registry's keys: format "json" and the grouped namespaces. -/
def describeOf (keys : List String) : DescribeResponse :=
  { format := "json", namespaces := (nameMapOf keys []).map Prod.snd }

/-- From `handle_describe` in src/lib.rs. -/
def handle_describe (registry : Registry) : Except NetpodError Response :=
  .ok (.Describe (describeOf (registry.map Prod.fst)))

/-- From `handle_invoke` in src/lib.rs: a matched handler's result is returned
verbatim (including its failure); a missing or unmatched var becomes an
`err_response` with the request's id. -/
def handle_invoke (registry : Registry) (req : Request) : Except NetpodError Response :=
  match req.var with
  | some v =>
    match lookupHandler registry v with
    | some f => f req
    | none => .ok (err_response req.id (.Message ("error no handler for " ++ v)))
  | none => .ok (err_response req.id (.Message "request lacks var name"))

/-- From `handle_request` in src/lib.rs — the dispatcher. -/
def handle_request (registry : Registry) (req : Request) : Except NetpodError Response :=
  match req.op with
  | .Describe => handle_describe registry
  | .Invoke => handle_invoke registry req

/-- The dispatch-plus-fallback portion of `handle_client` (src/lib.rs, lines
174-206): a dispatch failure is wrapped into `err_response(None, e)` before being
written back. Socket writing and the encode-failure fallback are not modelled. -/
def client_response (registry : Registry) (req : Request) : Response :=
  match handle_request registry req with
  | .ok resp => resp
  | .error e => err_response none e

/-- A bencode value, the object form handed to `decode_bencode_object` by bendy.
Byte strings are modelled as `String`. -/
inductive Bencode where
  | int (n : Int)
  | str (s : String)
  | list (xs : List Bencode)
  | dict (ps : List (String × Bencode))

/-- `String::decode_bencode_object(value).context(label)` as used in src/impls.rs:
only a byte-string object yields a string. -/
def decodeBStr (label : String) (v : Bencode) : Except DecodeError String :=
  match v with
  | .str s => .ok s
  | _ => .error (.wrongType label)

/-- The `while let Some(pair) = dict.next_pair()` loop of
`FromBencode for Request` (src/impls.rs), carried state `(op, id, var, args)`
initialized to `(Describe, None, None, None)`: recognized keys update the state
(an unrecognized `op` string is only logged and dropped), any other key aborts
with `unexpected_field`. -/
def decodeRequestPairs :
    List (String × Bencode) → Op → Option String → Option String → Option String →
    Except DecodeError Request
  | [], o, i, v, a => .ok { op := o, id := i, var := v, args := a }
  | (k, val) :: rest, o, i, v, a =>
    if k = "id" then
      match decodeBStr "id" val with
      | .ok s => decodeRequestPairs rest o (some s) v a
      | .error e => .error e
    else if k = "var" then
      match decodeBStr "var" val with
      | .ok s => decodeRequestPairs rest o i (some s) a
      | .error e => .error e
    else if k = "args" then
      match decodeBStr "args" val with
      | .ok s => decodeRequestPairs rest o i v (some s)
      | .error e => .error e
    else if k = "op" then
      match decodeBStr "op" val with
      | .ok s =>
        match Op.from_str s with
        | .ok o2 => decodeRequestPairs rest o2 i v a
        | .error _ => decodeRequestPairs rest o i v a
      | .error e => .error e
    else .error (.unexpectedField k)

/-- `FromBencode for Request` (src/impls.rs): the object must be a dictionary. -/
def Request.decode_bencode_object : Bencode → Except DecodeError Request
  | .dict ps => decodeRequestPairs ps .Describe none none none
  | _ => .error (.wrongType "request")

/-- Modelled from the spec: parse a decimal run for the external bencode
tokenizer ("byte strings length-prefixed"); accumulates digits, stops at the
first non-digit. -/
def parseDigits : List Char → Nat → Nat × List Char
  | [], acc => (acc, [])
  | c :: rest, acc =>
    if c.isDigit then parseDigits rest (acc * 10 + (c.toNat - '0'.toNat))
    else (acc, c :: rest)

/-- Modelled from the spec: a length-prefixed byte string `len:bytes` of the
external bencode codec. -/
def parseBStr (cs : List Char) : Option (String × List Char) :=
  match cs with
  | c :: _ =>
    if c.isDigit then
      match parseDigits cs 0 with
      | (n, ':' :: rest) =>
        if n ≤ rest.length then some (String.mk (rest.take n), rest.drop n) else none
      | _ => none
    else none
  | [] => none

mutual

/-- Modelled from the spec: the external wire codec's tokenizer
(`bendy`'s `Decoder::next_object`), out of scope of src — "a self-delimiting,
dictionary-based binary encoding (bencode-style: byte strings length-prefixed,
dictionaries terminated by a literal e)". Fuel-bounded; `none` is a parse
failure (or fuel exhaustion, never reached at the fuel used below). -/
def parseBVal : Nat → List Char → Option (Bencode × List Char)
  | 0, _ => none
  | fuel + 1, cs =>
    match cs with
    | [] => none
    | 'i' :: rest =>
      match rest with
      | '-' :: rest2 =>
        match rest2 with
        | c :: _ =>
          if c.isDigit then
            match parseDigits rest2 0 with
            | (n, 'e' :: rest3) => some (.int (-(n : Int)), rest3)
            | _ => none
          else none
        | [] => none
      | c :: _ =>
        if c.isDigit then
          match parseDigits rest 0 with
          | (n, 'e' :: rest3) => some (.int (n : Int), rest3)
          | _ => none
        else none
      | [] => none
    | 'l' :: rest =>
      match parseBItems fuel rest [] with
      | some (xs, rest2) => some (.list xs, rest2)
      | none => none
    | 'd' :: rest =>
      match parseBPairs fuel rest [] with
      | some (ps, rest2) => some (.dict ps, rest2)
      | none => none
    | c :: _ =>
      if c.isDigit then
        match parseBStr cs with
        | some (s, rest2) => some (.str s, rest2)
        | none => none
      else none

/-- Modelled from the spec: list items of the external bencode codec, up to the
terminating delimiter. -/
def parseBItems : Nat → List Char → List Bencode → Option (List Bencode × List Char)
  | 0, _, _ => none
  | fuel + 1, cs, acc =>
    match cs with
    | 'e' :: rest => some (acc.reverse, rest)
    | _ =>
      match parseBVal fuel cs with
      | some (x, rest2) => parseBItems fuel rest2 (x :: acc)
      | none => none

/-- Modelled from the spec: dictionary pairs (string key, then value) of the
external bencode codec, up to the terminating delimiter. -/
def parseBPairs : Nat → List Char → List (String × Bencode) →
    Option (List (String × Bencode) × List Char)
  | 0, _, _ => none
  | fuel + 1, cs, acc =>
    match cs with
    | 'e' :: rest => some (acc.reverse, rest)
    | _ =>
      match parseBStr cs with
      | some (k, rest2) =>
        match parseBVal fuel rest2 with
        | some (v, rest3) => parseBPairs fuel rest3 ((k, v) :: acc)
        | none => none
      | none => none

end

/-- `Request::from_bencode(buffer)`: tokenize one object from the front of the
buffer (external codec, modelled from the spec) and decode it as a `Request`
(src/impls.rs). The fuel is ample for any input of this length. -/
def from_bencode_bytes (buf : List Char) : Except DecodeError Request :=
  match parseBVal (buf.length * 2 + 4) buf with
  | some (obj, _) => Request.decode_bencode_object obj
  | none => .error .parseError

/-- From `decode_request` in src/lib.rs. The source checks
`buffer[buffer.len() - 1] == b'e'` with no guard for an empty buffer; on an
empty buffer that index is out of bounds and the function panics, which the
model marks as `none`. -/
def decode_request (buffer : List Char) : Option (Except NetpodError Request) :=
  match buffer.getLast? with
  | none => none
  | some c =>
    if c = 'e' then some ((from_bencode_bytes buffer).mapError NetpodError.BendyDecoding)
    else some (.error (.Message "keep reading"))

/-- Outcome of the framing loop: `panic` is a Rust panic, `blocked` is a read
that never returns (the chunk trace ran out before EOF), `done` is the
function's return value. -/
inductive ReadOutcome where
  | panic
  | blocked
  | done (r : Except NetpodError Request)

/-- The `loop` of `read_request` (src/lib.rs) over a trace of reads: each trace
element is one `stream.read` result (`[]` is a zero-byte read, i.e. EOF), `data`
is the accumulated buffer. EOF triggers one final decode whose outcome is
terminal; otherwise the chunk is appended, a successful decode returns, and a
failed decode continues the loop. -/
def read_loop : List (List Char) → List Char → ReadOutcome
  | [], _ => .blocked
  | chunk :: rest, data =>
    if chunk.isEmpty then
      match decode_request data with
      | none => .panic
      | some res => .done res
    else
      match decode_request (data ++ chunk) with
      | none => .panic
      | some (.ok r) => .done (.ok r)
      | some (.error _) => read_loop rest (data ++ chunk)

/-- From `read_request` in src/lib.rs: run the framing loop on an initially
empty buffer. -/
def read_request (chunks : List (List Char)) : ReadOutcome :=
  read_loop chunks []

/-- `ToBencode for Status` (src/impls.rs): `emit_str(self.as_str())`. -/
def encodeStatus (s : Status) : Bencode :=
  .str s.as_str

/-- `ToBencode for Var` (src/impls.rs). -/
def encodeVar (v : Var) : Bencode :=
  .dict [("name", .str v.name)]

/-- `ToBencode for Namespace` (src/impls.rs). -/
def encodeNamespace (ns : Namespace) : Bencode :=
  .dict [("name", .str ns.name), ("vars", .list (ns.vars.map encodeVar))]

/-- `ToBencode for DescribeResponse` (src/impls.rs). -/
def encodeDescribe (dr : DescribeResponse) : Bencode :=
  .dict [("format", .str dr.format), ("namespaces", .list (dr.namespaces.map encodeNamespace))]

/-- `ToBencode for ErrorResponse` (src/impls.rs): `ex-message` always, `id` only
when present, `status` always. -/
def encodeError (er : ErrorResponse) : Bencode :=
  .dict ([("ex-message", .str er.ex_message)] ++
    (match er.id with
     | some rid => [("id", .str rid)]
     | none => []) ++
    [("status", encodeStatus er.status)])

/-- `ToBencode for InvokeResponse` (src/impls.rs): `value` is emitted as a raw
byte string via `AsString`. -/
def encodeInvoke (ir : InvokeResponse) : Bencode :=
  .dict [("id", .str ir.id), ("status", encodeStatus ir.status), ("value", .str ir.value)]

/-- `ToBencode for Response` (src/impls.rs): emit the variant's dictionary. -/
def encodeResponse : Response → Bencode
  | .Error r => encodeError r
  | .Describe r => encodeDescribe r
  | .Invoke r => encodeInvoke r

/-- First-match key lookup in a decoded dictionary. -/
def lookupKey : List (String × Bencode) → String → Option Bencode
  | [], _ => none
  | (k, v) :: rest, key => if k = key then some v else lookupKey rest key

/-- The key set of an encoded dictionary. -/
def keysOf : Bencode → List String
  | .dict ps => ps.map Prod.fst
  | _ => []

/-- View a bencode object as a byte string. -/
def asStr : Bencode → Option String
  | .str s => some s
  | _ => none

/-- View a bencode object as a list. -/
def asList : Bencode → Option (List Bencode)
  | .list xs => some xs
  | _ => none

/-- Decode every element of a list, failing if any element fails. -/
def decodeAll {α : Type} (f : Bencode → Option α) : List Bencode → Option (List α)
  | [] => some []
  | b :: rest =>
    match f b, decodeAll f rest with
    | some a, some xs => some (a :: xs)
    | _, _ => none

/-- Modelled from the spec: the caller-side `Status` decoder — `Status` is
"serialized as the literal strings done / error". -/
def decodeStatus (b : Bencode) : Option Status :=
  match b with
  | .str s => if s = "done" then some .Done else if s = "error" then some .Error else none
  | _ => none

/-- Modelled from the spec: the caller-side `Var` decoder (a dictionary with a
`name` field), inverse of the emission in src/impls.rs. -/
def decodeVar (b : Bencode) : Option Var :=
  match b with
  | .dict ps =>
    match lookupKey ps "name" with
    | some v => (asStr v).map Var.mk
    | none => none
  | _ => none

/-- Modelled from the spec: the caller-side `Namespace` decoder (`name` and a
`vars` collection). -/
def decodeNamespace (b : Bencode) : Option Namespace :=
  match b with
  | .dict ps => do
    let n ← lookupKey ps "name" >>= asStr
    let vl ← lookupKey ps "vars" >>= asList
    let vs ← decodeAll decodeVar vl
    pure { name := n, vars := vs }
  | _ => none

/-- Modelled from the spec: the caller-side `Response` decoder, which is not
part of src (it lives in the remote caller). The spec fixes it: each variant is
a dictionary and "the caller distinguishes variants by the field set present
(namespaces means Describe, value means Invoke, ex-message means Error)";
`ErrorResponse.id` is optional, every other field is required. -/
def decodeResponse (b : Bencode) : Option Response :=
  match b with
  | .dict ps =>
    if (lookupKey ps "namespaces").isSome then do
      let f ← lookupKey ps "format" >>= asStr
      let nl ← lookupKey ps "namespaces" >>= asList
      let nss ← decodeAll decodeNamespace nl
      pure (.Describe { format := f, namespaces := nss })
    else if (lookupKey ps "value").isSome then do
      let i ← lookupKey ps "id" >>= asStr
      let st ← lookupKey ps "status" >>= decodeStatus
      let val ← lookupKey ps "value" >>= asStr
      pure (.Invoke { id := i, status := st, value := val })
    else if (lookupKey ps "ex-message").isSome then do
      let msg ← lookupKey ps "ex-message" >>= asStr
      let i ←
        match lookupKey ps "id" with
        | some v => (asStr v).map some
        | none => pure none
      let st ← lookupKey ps "status" >>= decodeStatus
      pure (.Error { id := i, status := st, ex_message := msg })
    else none
  | _ => none

/-- The grouping loop of `handle_describe` restated over pre-split
(namespace, var) pairs; used to reason about `nameMapOf` by induction. -/
def buildMap : List (String × String) → List (String × Namespace) → List (String × Namespace)
  | [], m => m
  | (n, v) :: rest, m => buildMap rest (insertVar m n v)

/-- First-match namespace lookup in the grouping map. -/
def lookupNS : List (String × Namespace) → String → Option Namespace
  | [], _ => none
  | (k, ns) :: rest, n => if k = n then some ns else lookupNS rest n

/-- Specification-side grouping: the vars contributed to namespace `n` by the
split key pairs, in order and with multiplicity (var names are not
deduplicated). -/
def pvs : List (String × String) → String → List Var
  | [], _ => []
  | (a, b) :: rest, n => if a = n then { name := b } :: pvs rest n else pvs rest n

/-- How one namespace's grouped entry grows when `vs` further vars arrive for
key `n`: an existing entry is extended, no entry is created for no vars. -/
def extendNS (cur : Option Namespace) (n : String) (vs : List Var) : Option Namespace :=
  match cur with
  | some ns => some { name := ns.name, vars := ns.vars ++ vs }
  | none =>
    match vs with
    | [] => none
    | _ => some { name := n, vars := vs }

/-- Each entry of the grouping map carries its own key as the namespace name. -/
def wfMap (m : List (String × Namespace)) : Prop :=
  ∀ p ∈ m, (Prod.snd p).name = p.1

/-- A handler that ignores its request, for registry fixtures. -/
def dummyHandler : Request → Except NetpodError Response :=
  fun _ => .ok (.Describe { format := "json", namespaces := [] })

/-- The registry of the spec's examples: keys math/add, math/sub, str/upper. -/
def exampleRegistry : Registry :=
  [("math/add", dummyHandler), ("math/sub", dummyHandler), ("str/upper", dummyHandler)]

/-- A handler that always fails, to exercise the failure path of dispatch. -/
def boomHandler : Request → Except NetpodError Response :=
  fun _ => .error (.Message "boom")

/-- A one-entry registry whose only handler fails. -/
def boomRegistry : Registry :=
  [("math/add", boomHandler)]

/-- An Invoke request addressed at the failing handler, with a known id. -/
def boomRequest : Request :=
  { op := .Invoke, id := some "42", var := some "math/add", args := none }

/-- The spec's Invoke-miss example: var math/mul is not a key of the example
registry. -/
def missRequest : Request :=
  { op := .Invoke, id := some "7", var := some "math/mul", args := none }

/-
Theorems.
-/

/-- Helper: a var absent from the registry's key list has no handler. -/
theorem lookupHandler_eq_none_of_not_mem (registry : Registry) (v : String)
    (h : v ∉ registry.map Prod.fst) : lookupHandler registry v = none := by
  induction registry with
  | nil => rfl
  | cons p rest ih =>
    obtain ⟨k, f⟩ := p
    simp only [List.map_cons, List.mem_cons] at h
    push_neg at h
    simp only [lookupHandler]
    rw [if_neg fun hkv => h.1 hkv.symm]
    exact ih h.2

/-- Claim C1, counterexample: with a registered callable that fails, dispatch
does not return a Response wrapping the failure under the request's id — it
propagates the callable's error outward. -/
theorem c1_dispatch_cex :
    handle_request boomRegistry boomRequest = Except.error (NetpodError.Message "boom") ∧
    exceptOk (handle_request boomRegistry boomRequest) = false :=
  ⟨rfl, rfl⟩

/-- Claim C1, amended: dispatch fails outward exactly when an Invoke request's
var matches a registry key and the registered callable fails; in that case the
connection lifecycle (not the dispatcher) wraps the failure into an
ErrorResponse whose id is None rather than the originating request's id. All
other requests produce a Response from dispatch itself. -/
theorem c1_dispatch_amended (registry : Registry) (req : Request) :
    (exceptOk (handle_request registry req) = false →
      req.op = Op.Invoke ∧ ∃ v f, req.var = some v ∧ lookupHandler registry v = some f ∧
        exceptOk (f req) = false) ∧
    (∀ e, handle_request registry req = Except.error e →
      client_response registry req = err_response none e) := by
  constructor
  · intro h
    cases hop : req.op with
    | Describe => simp [handle_request, hop, handle_describe, exceptOk] at h
    | Invoke =>
      refine ⟨rfl, ?_⟩
      simp only [handle_request, hop] at h
      cases hv : req.var with
      | none => simp [handle_invoke, hv, exceptOk] at h
      | some v =>
        simp only [handle_invoke, hv] at h
        cases hl : lookupHandler registry v with
        | none => simp [hl, exceptOk] at h
        | some f =>
          rw [hl] at h
          exact ⟨v, f, rfl, hl, h⟩
  · intro e he
    simp only [client_response, he]

/-- Witness for the amended C1 at a concrete failing callable. -/
theorem c1_dispatch_witness :
    client_response boomRegistry boomRequest = err_response none (NetpodError.Message "boom") :=
  (c1_dispatch_amended boomRegistry boomRequest).2 (NetpodError.Message "boom") rfl

/-- Claim C2: contrary to the claim, the completeness check of `decode_request`
indexes `buffer[buffer.len() - 1]` without an empty-buffer guard, so a zero-byte
read on a still-empty buffer panics (modelled as `none` / `ReadOutcome.panic`)
instead of performing a terminal decode attempt. -/
theorem c2_empty_buffer_panics :
    decode_request ([] : List Char) = none ∧ read_request [[]] = ReadOutcome.panic :=
  ⟨rfl, rfl⟩

/-- Claim C3: for a non-empty buffer, the framer's cheap completeness check
returns the fixed "keep reading" incomplete signal whenever the last buffered
byte is not the delimiter `e`, and hands the buffer to the full decoder exactly
when the last byte is the delimiter. -/
theorem c3_completeness_check (buf : List Char) (c : Char) (h : buf.getLast? = some c) :
    (c ≠ 'e' → decode_request buf = some (Except.error (NetpodError.Message "keep reading"))) ∧
    (c = 'e' → decode_request buf =
      some ((from_bencode_bytes buf).mapError NetpodError.BendyDecoding)) := by
  constructor
  · intro hc
    simp only [decode_request, h]
    rw [if_neg hc]
  · intro hc
    simp only [decode_request, h]
    rw [if_pos hc]

/-- Witness for C3 at a concrete incomplete buffer. -/
theorem c3_witness :
    decode_request ("d2:id".data) = some (Except.error (NetpodError.Message "keep reading")) :=
  (c3_completeness_check "d2:id".data 'd' (by decide)).1 (by decide)

/-- Claim C4: when the appended buffer's last byte is the delimiter but the full
decode fails, the framing loop does not return a Request — it keeps reading with
the buffer retained; it returns immediately exactly when the full decode
succeeds. -/
theorem c4_framer_continues (data chunk : List Char) (rest : List (List Char))
    (hch : chunk ≠ []) :
    (∀ de, (data ++ chunk).getLast? = some 'e' →
      from_bencode_bytes (data ++ chunk) = Except.error de →
      read_loop (chunk :: rest) data = read_loop rest (data ++ chunk)) ∧
    (∀ r, decode_request (data ++ chunk) = some (Except.ok r) →
      read_loop (chunk :: rest) data = ReadOutcome.done (Except.ok r)) := by
  have hne : chunk.isEmpty = false := by
    cases chunk with
    | nil => exact absurd rfl hch
    | cons a l => rfl
  constructor
  · intro de hlast hdec
    have hd : decode_request (data ++ chunk) =
        some (Except.error (NetpodError.BendyDecoding de)) := by
      simp [decode_request, hlast, hdec, Except.mapError]
    simp [read_loop, hne, hd]
  · intro r hdec
    simp [read_loop, hne, hdec]

/-- Witness for C4: the buffer d2:ide ends in the delimiter, fails to decode
(a dictionary key with no value), and the loop keeps reading. -/
theorem c4_witness :
    read_loop ["d2:ide".data] [] = read_loop [] ("d2:ide".data) :=
  (c4_framer_continues [] "d2:ide".data [] (by decide)).1 DecodeError.parseError (by decide) rfl

/-- Claim C8: an Invoke request whose var is absent, or names no registry key,
yields an ordinary ok ErrorResponse carrying the request's id and a message
naming the missing var (or stating its absence). -/
theorem c8_invoke_miss (registry : Registry) (req : Request) (hop : req.op = Op.Invoke) :
    (req.var = none → handle_request registry req =
      Except.ok (err_response req.id (NetpodError.Message "request lacks var name"))) ∧
    (∀ v, req.var = some v → v ∉ registry.map Prod.fst →
      handle_request registry req =
        Except.ok (err_response req.id (NetpodError.Message ("error no handler for " ++ v)))) := by
  constructor
  · intro hv
    simp [handle_request, hop, handle_invoke, hv]
  · intro v hv hmem
    simp [handle_request, hop, handle_invoke, hv,
      lookupHandler_eq_none_of_not_mem registry v hmem]

/-- Witness for C8: the spec's Invoke-miss example math/mul against the math/str
registry. -/
theorem c8_witness :
    handle_request exampleRegistry missRequest =
      Except.ok (err_response (some "7") (NetpodError.Message "error no handler for math/mul")) :=
  (c8_invoke_miss exampleRegistry missRequest rfl).2 "math/mul" rfl (by decide)

/-- Claim C10: the Describe path of dispatch depends only on the registry — any
two Describe requests, whatever their id, var and args, produce the same
response, and that response is determined by the registry's keys alone (no
request id is echoed). -/
theorem c10_describe_uniform (registry : Registry) (req1 req2 : Request)
    (h1 : req1.op = Op.Describe) (h2 : req2.op = Op.Describe) :
    handle_request registry req1 = handle_request registry req2 ∧
    handle_request registry req1 =
      Except.ok (Response.Describe (describeOf (registry.map Prod.fst))) := by
  constructor
  · simp [handle_request, h1, h2]
  · simp [handle_request, h1, handle_describe]

/-- Helper: a successful string decode means the object was that byte string. -/
theorem decodeBStr_ok_eq {l : String} {v : Bencode} {s : String}
    (h : decodeBStr l v = Except.ok s) : v = Bencode.str s := by
  cases v with
  | str t => simp only [decodeBStr, Except.ok.injEq] at h; rw [h]
  | int n => simp [decodeBStr] at h
  | list xs => simp [decodeBStr] at h
  | dict ps => simp [decodeBStr] at h

/-- Helper: an op pair whose string is unrecognized is dropped by the decode
loop — removing it does not change the result. -/
theorem decodeRequestPairs_drop_op (s : String) (h1 : s ≠ "describe") (h2 : s ≠ "invoke") :
    ∀ (pre post : List (String × Bencode)) (o : Op) (i v a : Option String),
    decodeRequestPairs (pre ++ ("op", Bencode.str s) :: post) o i v a =
      decodeRequestPairs (pre ++ post) o i v a := by
  intro pre
  induction pre with
  | nil =>
    intro post o i v a
    simp [decodeRequestPairs, decodeBStr, Op.from_str, h1, h2]
  | cons p rest ih =>
    intro post o i v a
    obtain ⟨k, val⟩ := p
    simp only [List.cons_append, decodeRequestPairs]
    by_cases hk1 : k = "id"
    · simp only [hk1, if_pos]
      cases hd : decodeBStr "id" val <;> simp [ih]
    · by_cases hk2 : k = "var"
      · simp only [hk1, hk2, if_neg, if_pos, ite_false, ite_true]
        simp [hk1, hk2]
        cases hd : decodeBStr "var" val <;> simp [ih]
      · by_cases hk3 : k = "args"
        · simp [hk1, hk2, hk3]
          cases hd : decodeBStr "args" val <;> simp [ih]
        · by_cases hk4 : k = "op"
          · simp [hk1, hk2, hk3, hk4]
            cases hd : decodeBStr "op" val with
            | error e => simp
            | ok t =>
              cases hf : Op.from_str t <;> simp [ih]
          · simp [hk1, hk2, hk3, hk4]

/-- Helper: if the decode loop succeeds and every op pair in the dictionary
carries an unrecognized string, the op of the result is the loop's incoming op. -/
theorem decodeRequestPairs_op_of_ok :
    ∀ (pairs : List (String × Bencode)) (o : Op) (i v a : Option String) (r : Request),
    decodeRequestPairs pairs o i v a = Except.ok r →
    (∀ val, ("op", val) ∈ pairs → ∀ t, val = Bencode.str t → t ≠ "describe" ∧ t ≠ "invoke") →
    r.op = o := by
  intro pairs
  induction pairs with
  | nil =>
    intro o i v a r h _
    simp only [decodeRequestPairs, Except.ok.injEq] at h
    rw [← h]
  | cons p rest ih =>
    intro o i v a r h hH
    obtain ⟨k, val⟩ := p
    have hHrest : ∀ val2, ("op", val2) ∈ rest → ∀ t, val2 = Bencode.str t →
        t ≠ "describe" ∧ t ≠ "invoke" :=
      fun val2 hm t ht => hH val2 (List.mem_cons_of_mem _ hm) t ht
    simp only [decodeRequestPairs] at h
    by_cases hk1 : k = "id"
    · rw [if_pos hk1] at h
      cases hd : decodeBStr "id" val with
      | ok s => simp only [hd] at h; exact ih _ _ _ _ _ h hHrest
      | error e => simp only [hd] at h; exact absurd h (by simp)
    · by_cases hk2 : k = "var"
      · rw [if_neg hk1, if_pos hk2] at h
        cases hd : decodeBStr "var" val with
        | ok s => simp only [hd] at h; exact ih _ _ _ _ _ h hHrest
        | error e => simp only [hd] at h; exact absurd h (by simp)
      · by_cases hk3 : k = "args"
        · rw [if_neg hk1, if_neg hk2, if_pos hk3] at h
          cases hd : decodeBStr "args" val with
          | ok s => simp only [hd] at h; exact ih _ _ _ _ _ h hHrest
          | error e => simp only [hd] at h; exact absurd h (by simp)
        · by_cases hk4 : k = "op"
          · rw [if_neg hk1, if_neg hk2, if_neg hk3, if_pos hk4] at h
            cases hd : decodeBStr "op" val with
            | error e => simp only [hd] at h; exact absurd h (by simp)
            | ok s =>
              simp only [hd] at h
              have hvs : val = Bencode.str s := decodeBStr_ok_eq hd
              have hmem : ("op", val) ∈ (k, val) :: rest := by
                rw [hk4]
                exact List.mem_cons_self _ _
              have hts : s ≠ "describe" ∧ s ≠ "invoke" := hH val hmem s hvs
              have hf : Op.from_str s = Except.error ("Invalid operation: " ++ s) := by
                simp [Op.from_str, hts.1, hts.2]
              simp only [hf] at h
              exact ih _ _ _ _ _ h hHrest
          · rw [if_neg hk1, if_neg hk2, if_neg hk3, if_neg hk4] at h
            exact absurd h (by simp)

/-- Claim C5: an op pair carrying an unrecognized operation string is dropped by
request decoding (removing it leaves the result unchanged, so it is never by
itself a reason for rejection), and whenever decoding succeeds on a dictionary
that omits op or carries only unrecognized op strings, the decoded request's op
is the default, Describe. -/
theorem c5_default_op (s : String) (pre post pairs : List (String × Bencode)) (r : Request) :
    (s ≠ "describe" → s ≠ "invoke" →
      Request.decode_bencode_object (Bencode.dict (pre ++ ("op", Bencode.str s) :: post)) =
        Request.decode_bencode_object (Bencode.dict (pre ++ post))) ∧
    (Request.decode_bencode_object (Bencode.dict pairs) = Except.ok r →
      (∀ val, ("op", val) ∈ pairs → ∀ t, val = Bencode.str t →
        t ≠ "describe" ∧ t ≠ "invoke") →
      r.op = Op.Describe) := by
  constructor
  · intro h1 h2
    simp only [Request.decode_bencode_object]
    exact decodeRequestPairs_drop_op s h1 h2 pre post _ _ _ _
  · intro h hH
    exact decodeRequestPairs_op_of_ok pairs _ _ _ _ r h hH

/-- Witness for C5: the dictionary with the single pair op = bogus decodes the
same as the empty dictionary, and its decoded op is Describe. -/
theorem c5_witness :
    Request.decode_bencode_object (Bencode.dict [("op", Bencode.str "bogus")]) =
      Request.decode_bencode_object (Bencode.dict []) ∧
    ({ op := Op.Describe, id := none, var := none, args := none } : Request).op = Op.Describe :=
  ⟨(c5_default_op "bogus" [] [] [("op", Bencode.str "bogus")]
      { op := Op.Describe, id := none, var := none, args := none }).1
      (by decide) (by decide),
   (c5_default_op "bogus" [] [] [("op", Bencode.str "bogus")]
      { op := Op.Describe, id := none, var := none, args := none }).2 rfl
      (by
        intro val hm t ht
        rw [List.mem_singleton] at hm
        have hv2 : val = Bencode.str "bogus" := congrArg Prod.snd hm
        rw [hv2] at ht
        cases ht
        exact ⟨by decide, by decide⟩)⟩

/-- Helper: a dictionary containing an unrecognized key never decodes to a
Request, whatever the loop state. -/
theorem decodeRequestPairs_unknown_not_ok (k : String) (v : Bencode)
    (hk1 : k ≠ "id") (hk2 : k ≠ "var") (hk3 : k ≠ "args") (hk4 : k ≠ "op") :
    ∀ (pre post : List (String × Bencode)) (o : Op) (i vr a : Option String),
    exceptOk (decodeRequestPairs (pre ++ (k, v) :: post) o i vr a) = false := by
  intro pre
  induction pre with
  | nil =>
    intro post o i vr a
    simp [decodeRequestPairs, hk1, hk2, hk3, hk4, exceptOk]
  | cons p rest ih =>
    intro post o i vr a
    obtain ⟨k2, val⟩ := p
    simp only [List.cons_append, decodeRequestPairs]
    by_cases h1 : k2 = "id"
    · rw [if_pos h1]
      cases hd : decodeBStr "id" val with
      | ok s => simp only [hd]; exact ih _ _ _ _ _
      | error e => simp only [hd]; rfl
    · by_cases h2 : k2 = "var"
      · rw [if_neg h1, if_pos h2]
        cases hd : decodeBStr "var" val with
        | ok s => simp only [hd]; exact ih _ _ _ _ _
        | error e => simp only [hd]; rfl
      · by_cases h3 : k2 = "args"
        · rw [if_neg h1, if_neg h2, if_pos h3]
          cases hd : decodeBStr "args" val with
          | ok s => simp only [hd]; exact ih _ _ _ _ _
          | error e => simp only [hd]; rfl
        · by_cases h4 : k2 = "op"
          · rw [if_neg h1, if_neg h2, if_neg h3, if_pos h4]
            cases hd : decodeBStr "op" val with
            | error e => simp only [hd]; rfl
            | ok t =>
              simp only [hd]
              cases hf : Op.from_str t with
              | ok o2 => simp only [hf]; exact ih _ _ _ _ _
              | error e2 => simp only [hf]; exact ih _ _ _ _ _
          · rw [if_neg h1, if_neg h2, if_neg h3, if_neg h4]; rfl

/-- Helper: when the pairs before an unrecognized key decode cleanly, the loop
reaches that key and fails with `unexpected_field` naming it. -/
theorem decodeRequestPairs_unknown_err (k : String) (v : Bencode)
    (hk1 : k ≠ "id") (hk2 : k ≠ "var") (hk3 : k ≠ "args") (hk4 : k ≠ "op") :
    ∀ (pre post : List (String × Bencode)) (o : Op) (i vr a : Option String) (r : Request),
    decodeRequestPairs pre o i vr a = Except.ok r →
    decodeRequestPairs (pre ++ (k, v) :: post) o i vr a =
      Except.error (DecodeError.unexpectedField k) := by
  intro pre
  induction pre with
  | nil =>
    intro post o i vr a r _
    simp [decodeRequestPairs, hk1, hk2, hk3, hk4]
  | cons p rest ih =>
    intro post o i vr a r h
    obtain ⟨k2, val⟩ := p
    simp only [decodeRequestPairs] at h
    simp only [List.cons_append, decodeRequestPairs]
    by_cases h1 : k2 = "id"
    · rw [if_pos h1] at h ⊢
      cases hd : decodeBStr "id" val with
      | ok s => simp only [hd] at h ⊢; exact ih _ _ _ _ _ _ h
      | error e => simp only [hd] at h; exact absurd h (by simp)
    · by_cases h2 : k2 = "var"
      · rw [if_neg h1, if_pos h2] at h ⊢
        cases hd : decodeBStr "var" val with
        | ok s => simp only [hd] at h ⊢; exact ih _ _ _ _ _ _ h
        | error e => simp only [hd] at h; exact absurd h (by simp)
      · by_cases h3 : k2 = "args"
        · rw [if_neg h1, if_neg h2, if_pos h3] at h ⊢
          cases hd : decodeBStr "args" val with
          | ok s => simp only [hd] at h ⊢; exact ih _ _ _ _ _ _ h
          | error e => simp only [hd] at h; exact absurd h (by simp)
        · by_cases h4 : k2 = "op"
          · rw [if_neg h1, if_neg h2, if_neg h3, if_pos h4] at h ⊢
            cases hd : decodeBStr "op" val with
            | error e => simp only [hd] at h; exact absurd h (by simp)
            | ok t =>
              simp only [hd] at h ⊢
              cases hf : Op.from_str t with
              | ok o2 => simp only [hf] at h ⊢; exact ih _ _ _ _ _ _ h
              | error e2 => simp only [hf] at h ⊢; exact ih _ _ _ _ _ _ h
          · rw [if_neg h1, if_neg h2, if_neg h3, if_neg h4] at h
            exact absurd h (by simp)

/-- Claim C6: a request dictionary containing a key outside id, var, args, op
never yields a Request, and when the preceding pairs decode cleanly the failure
is precisely the unexpected-field error naming that key. -/
theorem c6_unknown_field (pre post : List (String × Bencode)) (k : String) (v : Bencode)
    (hk1 : k ≠ "id") (hk2 : k ≠ "var") (hk3 : k ≠ "args") (hk4 : k ≠ "op") :
    exceptOk (Request.decode_bencode_object (Bencode.dict (pre ++ (k, v) :: post))) = false ∧
    (∀ r, Request.decode_bencode_object (Bencode.dict pre) = Except.ok r →
      Request.decode_bencode_object (Bencode.dict (pre ++ (k, v) :: post)) =
        Except.error (DecodeError.unexpectedField k)) := by
  constructor
  · exact decodeRequestPairs_unknown_not_ok k v hk1 hk2 hk3 hk4 pre post _ _ _ _
  · intro r h
    exact decodeRequestPairs_unknown_err k v hk1 hk2 hk3 hk4 pre post _ _ _ _ r h

/-- Witness for C6: the spec's unknown-field example — op describe plus a bogus
key fails naming bogus. -/
theorem c6_witness :
    Request.decode_bencode_object
        (Bencode.dict [("op", Bencode.str "describe"), ("bogus", Bencode.str "x")]) =
      Except.error (DecodeError.unexpectedField "bogus") :=
  (c6_unknown_field [("op", Bencode.str "describe")] [] "bogus" (Bencode.str "x")
      (by decide) (by decide) (by decide) (by decide)).2
    { op := Op.Describe, id := none, var := none, args := none } rfl

/-- Helper: status strings decode back to the status that emitted them. -/
theorem decodeStatus_encode (st : Status) : decodeStatus (encodeStatus st) = some st := by
  cases st <;> rfl

/-- Helper: an encoded Var decodes back to itself. -/
theorem decodeVar_encode (v : Var) : decodeVar (encodeVar v) = some v := rfl

/-- Helper: an encoded Var list decodes back elementwise. -/
theorem decodeAll_var (vs : List Var) : decodeAll decodeVar (vs.map encodeVar) = some vs := by
  induction vs with
  | nil => rfl
  | cons v rest ih => simp [decodeAll, decodeVar_encode, ih]

/-- Helper: an encoded Namespace decodes back to itself. -/
theorem decodeNamespace_encode (ns : Namespace) :
    decodeNamespace (encodeNamespace ns) = some ns := by
  simp [decodeNamespace, encodeNamespace, lookupKey, asStr, asList, decodeAll_var]

/-- Helper: an encoded Namespace list decodes back elementwise. -/
theorem decodeAll_namespace (nss : List Namespace) :
    decodeAll decodeNamespace (nss.map encodeNamespace) = some nss := by
  induction nss with
  | nil => rfl
  | cons ns rest ih => simp [decodeAll, decodeNamespace_encode, ih]

/-- Claim C9: decoding a Response's wire dictionary reproduces the Response
field-for-field, for every value of every variant; and the emitted key sets
show that ErrorResponse's id is the only conditionally emitted field — it
appears exactly when present, while every other field of every variant is
always emitted. -/
theorem c9_roundtrip :
    (∀ r : Response, decodeResponse (encodeResponse r) = some r) ∧
    (∀ er : ErrorResponse, keysOf (encodeResponse (Response.Error er)) =
      if er.id.isSome then ["ex-message", "id", "status"] else ["ex-message", "status"]) ∧
    (∀ ir : InvokeResponse, keysOf (encodeResponse (Response.Invoke ir)) =
      ["id", "status", "value"]) ∧
    (∀ dr : DescribeResponse, keysOf (encodeResponse (Response.Describe dr)) =
      ["format", "namespaces"]) := by
  refine ⟨?_, ?_, ?_, ?_⟩
  · intro r
    cases r with
    | Describe dr =>
      simp [encodeResponse, encodeDescribe, decodeResponse, lookupKey, asStr, asList,
        decodeAll_namespace]
    | Invoke ir =>
      simp [encodeResponse, encodeInvoke, decodeResponse, lookupKey, asStr,
        decodeStatus_encode]
    | Error er =>
      obtain ⟨oid, st, msg⟩ := er
      cases oid with
      | none =>
        simp [encodeResponse, encodeError, decodeResponse, lookupKey, asStr,
          decodeStatus_encode]
      | some rid =>
        simp [encodeResponse, encodeError, decodeResponse, lookupKey, asStr,
          decodeStatus_encode]
  · intro er
    obtain ⟨oid, st, msg⟩ := er
    cases oid <;> rfl
  · intro ir
    rfl
  · intro dr
    rfl

/-- Helper: the grouping loop over keys equals the grouping loop over the
successfully split pairs. -/
theorem nameMapOf_eq_buildMap :
    ∀ (keys : List String) (m : List (String × Namespace)),
    nameMapOf keys m = buildMap (keys.filterMap splitOnceStr) m := by
  intro keys
  induction keys with
  | nil => intro m; rfl
  | cons k rest ih =>
    intro m
    simp only [nameMapOf, List.filterMap_cons]
    cases h : splitOnceStr k with
    | none => exact ih m
    | some p =>
      obtain ⟨a, b⟩ := p
      simp only [buildMap]
      exact ih _

/-- Helper: insertion at a matching head entry grows that entry. -/
theorem insertVar_cons_eq (k : String) (ns : Namespace) (rest : List (String × Namespace))
    (v : String) :
    insertVar ((k, ns) :: rest) k v =
      (k, { name := ns.name, vars := ns.vars ++ [{ name := v }] }) :: rest := by
  simp [insertVar]

/-- Helper: insertion passes over a non-matching head entry. -/
theorem insertVar_cons_ne (k : String) (ns : Namespace) (rest : List (String × Namespace))
    (a v : String) (h : ¬k = a) :
    insertVar ((k, ns) :: rest) a v = (k, ns) :: insertVar rest a v := by
  simp [insertVar, h]

/-- Helper: after inserting a var for key `n`, looking up `n` finds the grown
entry. -/
theorem lookupNS_insertVar_eq (m : List (String × Namespace)) (n v : String) :
    lookupNS (insertVar m n v) n =
      some (match lookupNS m n with
            | some ns => { name := ns.name, vars := ns.vars ++ [{ name := v }] }
            | none => { name := n, vars := [{ name := v }] }) := by
  induction m with
  | nil => simp [insertVar, lookupNS]
  | cons p rest ih =>
    obtain ⟨k, ns⟩ := p
    by_cases hk : k = n
    · simp [insertVar, lookupNS, hk]
    · simp [insertVar, lookupNS, hk, ih]

/-- Helper: inserting a var for key `n` does not disturb other keys. -/
theorem lookupNS_insertVar_ne (m : List (String × Namespace)) (n v n' : String)
    (h : n' ≠ n) : lookupNS (insertVar m n v) n' = lookupNS m n' := by
  have h2 : ¬n = n' := fun hh => h hh.symm
  induction m with
  | nil => simp [insertVar, lookupNS, h2]
  | cons p rest ih =>
    obtain ⟨k, ns⟩ := p
    by_cases hk : k = n
    · subst hk
      rw [insertVar_cons_eq]
      simp [lookupNS, h2]
    · rw [insertVar_cons_ne _ _ _ _ _ hk]
      simp [lookupNS, ih]

/-- Helper: the entry the grouping loop leaves at key `n` is the incoming entry
extended with exactly the vars the pair list contributes to `n`. -/
theorem lookupNS_buildMap :
    ∀ (ps : List (String × String)) (m : List (String × Namespace)) (n : String),
    lookupNS (buildMap ps m) n = extendNS (lookupNS m n) n (pvs ps n) := by
  intro ps
  induction ps with
  | nil =>
    intro m n
    simp only [buildMap, pvs]
    cases h : lookupNS m n with
    | none => simp [extendNS]
    | some ns =>
      obtain ⟨a, b⟩ := ns
      simp [extendNS]
  | cons p rest ih =>
    intro m n
    obtain ⟨a, b⟩ := p
    simp only [buildMap]
    rw [ih]
    by_cases ha : a = n
    · subst ha
      rw [lookupNS_insertVar_eq]
      simp only [pvs, if_pos rfl]
      cases h : lookupNS m a with
      | none => simp [extendNS]
      | some ns => simp [extendNS, List.append_assoc]
    · rw [lookupNS_insertVar_ne _ _ _ _ fun hh => ha hh.symm]
      simp only [pvs, if_neg ha]

/-- Helper: key membership after one insertion. -/
theorem mem_fst_insertVar :
    ∀ (m : List (String × Namespace)) (a b n : String),
    n ∈ (insertVar m a b).map Prod.fst ↔ n ∈ m.map Prod.fst ∨ n = a := by
  intro m
  induction m with
  | nil => intro a b n; simp [insertVar]
  | cons p rest ih =>
    intro a b n
    obtain ⟨k, ns⟩ := p
    by_cases hk : k = a
    · subst hk
      rw [insertVar_cons_eq]
      simp only [List.map_cons, List.mem_cons]
      tauto
    · rw [insertVar_cons_ne _ _ _ _ _ hk]
      simp only [List.map_cons, List.mem_cons, ih]
      tauto

/-- Helper: one insertion keeps the key list duplicate-free. -/
theorem nodup_fst_insertVar :
    ∀ (m : List (String × Namespace)) (a b : String),
    (m.map Prod.fst).Nodup → ((insertVar m a b).map Prod.fst).Nodup := by
  intro m
  induction m with
  | nil => intro a b _; simp [insertVar]
  | cons p rest ih =>
    intro a b h
    obtain ⟨k, ns⟩ := p
    simp only [List.map_cons, List.nodup_cons] at h
    by_cases hk : k = a
    · subst hk
      rw [insertVar_cons_eq]
      simp only [List.map_cons, List.nodup_cons]
      exact h
    · rw [insertVar_cons_ne _ _ _ _ _ hk]
      simp only [List.map_cons, List.nodup_cons]
      constructor
      · rw [mem_fst_insertVar]
        push_neg
        exact ⟨h.1, hk⟩
      · exact ih a b h.2

/-- Helper: the grouping map's keys are the incoming keys plus the pair list's
namespace parts. -/
theorem mem_fst_buildMap :
    ∀ (ps : List (String × String)) (m : List (String × Namespace)) (n : String),
    n ∈ (buildMap ps m).map Prod.fst ↔ n ∈ m.map Prod.fst ∨ n ∈ ps.map Prod.fst := by
  intro ps
  induction ps with
  | nil => intro m n; simp [buildMap]
  | cons p rest ih =>
    intro m n
    obtain ⟨a, b⟩ := p
    simp only [buildMap, List.map_cons, List.mem_cons]
    rw [ih, mem_fst_insertVar]
    tauto

/-- Helper: the grouping loop keeps the key list duplicate-free. -/
theorem nodup_fst_buildMap :
    ∀ (ps : List (String × String)) (m : List (String × Namespace)),
    (m.map Prod.fst).Nodup → ((buildMap ps m).map Prod.fst).Nodup := by
  intro ps
  induction ps with
  | nil => intro m h; exact h
  | cons p rest ih =>
    intro m h
    obtain ⟨a, b⟩ := p
    exact ih _ (nodup_fst_insertVar m a b h)

/-- Helper: insertion preserves the entry-name-matches-key invariant. -/
theorem wf_insertVar :
    ∀ (m : List (String × Namespace)) (a b : String),
    wfMap m → wfMap (insertVar m a b) := by
  intro m
  induction m with
  | nil =>
    intro a b _ p hp
    simp only [insertVar, List.mem_singleton] at hp
    rw [hp]
  | cons q rest ih =>
    intro a b h
    obtain ⟨k, ns⟩ := q
    have hrest : wfMap rest := fun p hp => h p (List.mem_cons_of_mem _ hp)
    by_cases hk : k = a
    · subst hk
      intro p hp
      rw [insertVar_cons_eq] at hp
      rcases List.mem_cons.mp hp with heq | hmem
      · rw [heq]
        exact h (k, ns) (List.mem_cons_self _ _)
      · exact h p (List.mem_cons_of_mem _ hmem)
    · intro p hp
      rw [insertVar_cons_ne _ _ _ _ _ hk] at hp
      rcases List.mem_cons.mp hp with heq | hmem
      · rw [heq]
        exact h (k, ns) (List.mem_cons_self _ _)
      · exact ih a b hrest p hmem

/-- Helper: the grouping loop preserves the entry-name-matches-key invariant. -/
theorem wf_buildMap :
    ∀ (ps : List (String × String)) (m : List (String × Namespace)),
    wfMap m → wfMap (buildMap ps m) := by
  intro ps
  induction ps with
  | nil => intro m h; exact h
  | cons p rest ih =>
    intro m h
    obtain ⟨a, b⟩ := p
    exact ih _ (wf_insertVar m a b h)

/-- Helper: with duplicate-free keys, a member entry is what lookup finds. -/
theorem lookupNS_of_mem_nodup :
    ∀ (m : List (String × Namespace)) (k : String) (ns : Namespace),
    (m.map Prod.fst).Nodup → (k, ns) ∈ m → lookupNS m k = some ns := by
  intro m
  induction m with
  | nil => intro k ns _ hm; simp at hm
  | cons p rest ih =>
    intro k ns h hm
    obtain ⟨k2, ns2⟩ := p
    simp only [List.map_cons, List.nodup_cons] at h
    rcases List.mem_cons.mp hm with heq | hrest
    · have hk : k2 = k := (congrArg Prod.fst heq).symm
      have hns : ns2 = ns := (congrArg Prod.snd heq).symm
      simp [lookupNS, hk, hns]
    · by_cases hk : k2 = k
      · exfalso
        apply h.1
        rw [hk]
        exact List.mem_map.mpr ⟨(k, ns), hrest, rfl⟩
      · simp only [lookupNS, if_neg hk]
        exact ih k ns h.2 hrest

/-- Helper: under the invariant, listing entry names equals listing keys. -/
theorem map_name_eq_fst :
    ∀ (m : List (String × Namespace)), wfMap m →
    m.map (fun p => (Prod.snd p).name) = m.map Prod.fst := by
  intro m
  induction m with
  | nil => intro _; rfl
  | cons p rest ih =>
    intro h
    simp only [List.map_cons]
    rw [h p (List.mem_cons_self _ _), ih fun q hq => h q (List.mem_cons_of_mem _ hq)]

/-- Claim C7: for every registry, Describe yields format json and namespaces
obtained by splitting each key at its first slash (keys without a slash are
skipped): the namespace names are exactly the distinct namespace parts (no
duplicates), and each namespace carries, in order and with multiplicity, one
var per key that split to it — var names are not deduplicated. -/
theorem c7_describe_grouping (registry : Registry) :
    handle_describe registry =
      Except.ok (Response.Describe (describeOf (registry.map Prod.fst))) ∧
    (describeOf (registry.map Prod.fst)).format = "json" ∧
    ((describeOf (registry.map Prod.fst)).namespaces.map Namespace.name).Nodup ∧
    (∀ n, n ∈ (describeOf (registry.map Prod.fst)).namespaces.map Namespace.name ↔
      n ∈ ((registry.map Prod.fst).filterMap splitOnceStr).map Prod.fst) ∧
    (∀ ns ∈ (describeOf (registry.map Prod.fst)).namespaces,
      ns.vars = pvs ((registry.map Prod.fst).filterMap splitOnceStr) ns.name) := by
  have hM : (describeOf (registry.map Prod.fst)).namespaces =
      (buildMap ((registry.map Prod.fst).filterMap splitOnceStr) []).map Prod.snd := by
    simp only [describeOf]
    rw [nameMapOf_eq_buildMap]
  have hwf : wfMap (buildMap ((registry.map Prod.fst).filterMap splitOnceStr) []) :=
    wf_buildMap _ [] fun p hp => absurd hp (List.not_mem_nil p)
  have hnodup : ((buildMap ((registry.map Prod.fst).filterMap splitOnceStr) []).map
      Prod.fst).Nodup :=
    nodup_fst_buildMap _ [] List.nodup_nil
  have hnames : (describeOf (registry.map Prod.fst)).namespaces.map Namespace.name =
      (buildMap ((registry.map Prod.fst).filterMap splitOnceStr) []).map Prod.fst := by
    rw [hM, List.map_map]
    exact map_name_eq_fst _ hwf
  refine ⟨rfl, rfl, ?_, ?_, ?_⟩
  · rw [hnames]
    exact hnodup
  · intro n
    rw [hnames, mem_fst_buildMap]
    simp
  · intro ns hns
    rw [hM] at hns
    obtain ⟨p, hpmem, hpeq⟩ := List.mem_map.mp hns
    obtain ⟨k, ns2⟩ := p
    have hpeq2 : ns2 = ns := hpeq
    have hname : ns2.name = k := hwf (k, ns2) hpmem
    have hlook : lookupNS (buildMap ((registry.map Prod.fst).filterMap splitOnceStr) []) k =
        some ns2 :=
      lookupNS_of_mem_nodup _ k ns2 hnodup hpmem
    rw [lookupNS_buildMap] at hlook
    simp only [lookupNS, extendNS] at hlook
    rw [← hpeq2, hname]
    cases hp : pvs ((registry.map Prod.fst).filterMap splitOnceStr) k with
    | nil => rw [hp] at hlook; exact absurd hlook (by simp)
    | cons v vs =>
      rw [hp] at hlook
      have he : ns2 = { name := k, vars := v :: vs } := (Option.some.inj hlook).symm
      rw [he]

/-- Witness for C7: the spec's example registry has a math namespace whose vars
are exactly add and sub. -/
theorem c7_witness :
    "math" ∈ (describeOf (exampleRegistry.map Prod.fst)).namespaces.map Namespace.name ∧
    ({ name := "math", vars := [{ name := "add" }, { name := "sub" }] } : Namespace).vars =
      pvs ((exampleRegistry.map Prod.fst).filterMap splitOnceStr)
        ({ name := "math", vars := [{ name := "add" }, { name := "sub" }] } : Namespace).name :=
  ⟨((c7_describe_grouping exampleRegistry).2.2.2.1 "math").mpr (by decide),
   (c7_describe_grouping exampleRegistry).2.2.2.2
     { name := "math", vars := [{ name := "add" }, { name := "sub" }] } (by decide)⟩

/-- Witness for C10 at two Describe requests differing in id, var and args. -/
theorem c10_witness :
    handle_request exampleRegistry { op := .Describe, id := some "A", var := some "x", args := some "y" } =
      handle_request exampleRegistry { op := .Describe, id := some "B", var := none, args := none } :=
  (c10_describe_uniform exampleRegistry
    { op := .Describe, id := some "A", var := some "x", args := some "y" }
    { op := .Describe, id := some "B", var := none, args := none } rfl rfl).1
